import Mathlib

/-!
Shallow embedding of the package assembly and distribution engine of the
edgegraviton repository (a Zarf-derived packaging tool), together with
theorems settling the specification claims about it.

The embedding follows the Go source:
* `src/pkg/packager/creator/normal.go` (`LoadPackageDefinition`, `Assemble`,
  `addComponent`),
* the composer file containing `ContainsOCIImport` / `fetchOCISkeleton`,
* `src/pkg/packager/oras.go` (`pullOCIZarfPackage`),
* `src/extensions/bigbang/bigbang.go` (`isValidVersion`, `Run`),
* `src/cmd/generate.go` (`generatePackageCmd`).

Filesystem, network, registry and hashing effects are made explicit: fallible
operations become `Except`-valued environment functions, the OCI blob cache
becomes an explicit state value, and every operation that performs I/O is
recorded in a trace so that "how many times was this fetched" is a provable
quantity.

The file is organized as: all definitions first, then all theorems.
-/

namespace EdgeGraviton

/-! ## Data model (`types` package, spec section 3)

The `types` package itself is not under `src/`; the structures below are
modelled from the spec's data model: a package has `Kind`, `Metadata`
(name, description, version, architecture, aggregate checksum), `Build`
info (differential flag, migrations, architecture), an ordered component
list and package-level variables/constants.  A component carries `Files`
(source, target, optional checksum, executable bit), `Images`, `Repos`,
and an import directive (local relative path or OCI url + optional
component-name override). -/

/-- A component file entry: source, target, optional declared checksum and
the executable bit (`types.ZarfFile`). -/
structure ZarfFile where
  Source : String
  Target : String
  Shasum : String
  Executable : Bool
deriving DecidableEq

/-- An import directive on a component: local relative `path` or remote OCI
`url`, plus optional component-`name` override (`types.ZarfComponentImport`). -/
structure ImportDirective where
  path : String
  url : String
  name : String
deriving DecidableEq

/-- A package component (`types.ZarfComponent`), restricted to the fields the
claims are about. -/
structure ZarfComponent where
  Name : String
  Images : List String
  Files : List ZarfFile
  Repos : List String
  Import : ImportDirective
deriving DecidableEq

/-- Package metadata (`types.ZarfMetadata`). -/
structure ZarfMetadata where
  Name : String
  Description : String
  Version : String
  Architecture : String
  AggregateChecksum : String
deriving DecidableEq

/-- Package build record (`types.ZarfBuildData`). -/
structure ZarfBuildData where
  Differential : Bool
  Architecture : String
  Migrations : List String
deriving DecidableEq

/-- A package definition (`types.ZarfPackage`): kind, metadata, build info,
ordered components, variables and constants.  Variables and constants are
kept abstract as their declared names; the claims never look inside them. -/
structure ZarfPackage where
  Kind : String
  Metadata : ZarfMetadata
  Build : ZarfBuildData
  Components : List ZarfComponent
  Variables : List String
  Constants : List String
deriving DecidableEq

/-- The Go zero value of `types.ZarfPackage`: empty strings, false flags,
empty lists. -/
def ZarfPackage.zero : ZarfPackage :=
  { Kind := ""
    Metadata :=
      { Name := "", Description := "", Version := "", Architecture := ""
        AggregateChecksum := "" }
    Build := { Differential := false, Architecture := "", Migrations := [] }
    Components := []
    Variables := []
    Constants := [] }

/-! ## C1: `LoadPackageDefinition`, differential branch
(`creator/normal.go` lines 74-96)

```go
if pc.cfg.Pkg.Build.Differential {
    diffData, err := loadDifferentialData(&pc.cfg.CreateOpts.DifferentialData)
    if err != nil { return nil, nil, err }
    versionsMatch := ...DifferentialPackageVersion == pc.cfg.Pkg.Metadata.Version
    if versionsMatch { return nil, nil, errors.New(lang.PkgCreateErrDifferentialSameVersion) }
    noVersionSet := ...DifferentialPackageVersion == "" || pc.cfg.Pkg.Metadata.Version == ""
    if noVersionSet { return nil, nil, errors.New(lang.PkgCreateErrDifferentialNoVersion) }
    diffPkg, err := removeCopiesFromDifferentialPackage(extendedPkg, diffData)
    if err != nil { return nil, nil, err }
    return diffPkg, nil, nil
}
return extendedPkg, warnings, nil
```

`loadDifferentialData` (which reads the previous package and fills in
`DifferentialPackageVersion`) and `removeCopiesFromDifferentialPackage` are
not under `src/`; they enter the embedding as parameters, so the theorems
are about the version checks that are in `src/`. -/

/-- Differential-package data (`types.DifferentialData`), restricted to the
version field the checks read after `loadDifferentialData` has populated it. -/
structure ZarfDifferentialData where
  DifferentialPackageVersion : String
deriving DecidableEq

/-- The distinct failure modes of the differential branch of
`LoadPackageDefinition`. -/
inductive CreateError where
  | differentialSameVersion
  | differentialNoVersion
  | loadDifferentialDataErr (e : String)
  | removeCopiesErr (e : String)
deriving DecidableEq

/-- The differential portion of `PackageCreator.LoadPackageDefinition`
(`creator/normal.go:74-98`).  `loadDiffData` stands for the result of
`loadDifferentialData` and `removeCopies` for
`removeCopiesFromDifferentialPackage`, both outside `src/`;
`pkg` is `pc.cfg.Pkg` and `extendedPkg` the package after composition,
templating and extensions. -/
def loadPackageDefinitionDifferential
    (loadDiffData : Except String ZarfDifferentialData)
    (removeCopies : ZarfPackage → ZarfDifferentialData → Except String ZarfPackage)
    (pkg extendedPkg : ZarfPackage) : Except CreateError ZarfPackage :=
  if pkg.Build.Differential then
    match loadDiffData with
    | .error e => .error (.loadDifferentialDataErr e)
    | .ok diffData =>
      if diffData.DifferentialPackageVersion == pkg.Metadata.Version then
        .error .differentialSameVersion
      else if diffData.DifferentialPackageVersion == "" || pkg.Metadata.Version == "" then
        .error .differentialNoVersion
      else
        match removeCopies extendedPkg diffData with
        | .error e => .error (.removeCopiesErr e)
        | .ok diffPkg => .ok diffPkg
  else
    .ok extendedPkg

/-- A concrete differential package definition whose target version is the
empty string, used to exercise the version checks. -/
def diffPkgNoVersion : ZarfPackage :=
  { ZarfPackage.zero with
    Kind := "ZarfPackageConfig"
    Metadata := { ZarfPackage.zero.Metadata with Name := "p" }
    Build := { ZarfPackage.zero.Build with Differential := true } }

/-- A concrete differential package definition with version "2.0.0". -/
def diffPkgV2 : ZarfPackage :=
  { ZarfPackage.zero with
    Kind := "ZarfPackageConfig"
    Metadata := { ZarfPackage.zero.Metadata with Name := "p", Version := "2.0.0" }
    Build := { ZarfPackage.zero.Build with Differential := true } }

/-! ## C2 / C7 / part of C4: the `component.Files` loop of `addComponent`
(`creator/normal.go` lines 219-284)

For each file entry the loop materializes the source into the destination
(one of: download, download+extract, extract, copy — all single attempts),
then, if a checksum is declared (`file.Shasum != ""`), verifies it with
`utils.SHAsMatch` and aborts on mismatch, and finally chmods the destination
to 0700 when the entry is executable or the destination is a directory and
to 0600 otherwise.

The materialization, hashing and directory test are I/O; they enter the
embedding as an environment.  `env.fetch i src` is the single
materialization attempt for file index `i` (its `Except` failure models any
of the download/extract/copy error returns); `env.hash` is the content hash
used by `utils.SHAsMatch`; `env.isDir i` is `utils.IsDir` on the
materialized destination of file `i`. -/

/-- Environment for the file loop of `addComponent`: one materialization
attempt per file index, the content-hash function, and the
destination-is-directory test. -/
structure FileEnv where
  fetch : Nat → String → Except String String
  hash : String → String
  isDir : Nat → Bool

/-- Modelled from the spec: `utils.SHAsMatch` (not under `src/`), which
computes the content hash of the materialized file and fails with an
integrity error when it does not match the declared value. -/
def shasMatch (hash : String → String) (content declared : String) :
    Except String Unit :=
  if hash content == declared then .ok ()
  else .error ("shasum mismatch: expected " ++ declared)

/-- A file entry after the loop body succeeded for it: its index, its
materialized content, and the final file mode set by `os.Chmod`. -/
structure PlacedFile where
  idx : Nat
  content : String
  mode : Nat
deriving DecidableEq

/-- One iteration of the `component.Files` loop of `addComponent`
(`creator/normal.go:219-284`): materialize, then verify the declared
checksum if any (`file.Shasum != ""`), then set the file mode
(0700 when executable-or-directory, 0600 otherwise). -/
def processFile (env : FileEnv) (idx : Nat) (file : ZarfFile) :
    Except String PlacedFile :=
  match env.fetch idx file.Source with
  | .error e => .error ("unable to load " ++ file.Source ++ ": " ++ e)
  | .ok content =>
    match (if file.Shasum != "" then shasMatch env.hash content file.Shasum
           else .ok ()) with
    | .error e => .error e
    | .ok _ =>
      .ok { idx := idx, content := content
            mode := if file.Executable || env.isDir idx then 0o700 else 0o600 }

/-- The `component.Files` loop of `addComponent`, starting at file index
`start`.  Returns the loop result (the list of placed files, or the first
error, which aborts the component) together with the trace of file indices
whose materialization was attempted — each index is fetched at the moment
its iteration starts, and the loop stops at the first failure. -/
def processFilesAux (env : FileEnv) :
    Nat → List ZarfFile → Except String (List PlacedFile) × List Nat
  | _, [] => (.ok [], [])
  | i, f :: fs =>
    match processFile env i f with
    | .error e => (.error e, [i])
    | .ok pf =>
      let r := processFilesAux env (i + 1) fs
      (r.1.map (fun l => pf :: l), i :: r.2)

/-- The `component.Files` loop of `addComponent` over a whole file list. -/
def processFiles (env : FileEnv) (files : List ZarfFile) :
    Except String (List PlacedFile) × List Nat :=
  processFilesAux env 0 files

/-- A concrete file environment whose hash of content `c` is `"H" ++ c`. -/
def hashFileEnv : FileEnv :=
  { fetch := fun _ _ => .ok "hi", hash := fun c => "H" ++ c
    isDir := fun _ => false }

/-- A concrete two-entry file list: one executable entry, one plain entry,
neither declaring a checksum. -/
def exeFiles : List ZarfFile :=
  [{ Source := "s", Target := "t", Shasum := "", Executable := true },
   { Source := "s2", Target := "t2", Shasum := "", Executable := false }]

/-! ## C3 / C4: the image-aggregation phase of `Assemble`
(`creator/normal.go` lines 101-196)

After the per-component work, `Assemble` collects every image reference of
every component, in package component order and per-component declaration
order, via `transform.ParseImageRef` (a parse failure aborts with
"failed to create ref for image %s"), deduplicates the result with
`helpers.Unique`, and — when the deduplicated list is non-empty — runs the
pull under `helpers.Retry(doPull, 3, 5*time.Second, ...)`, wrapping a final
failure as "unable to pull images after 3 attempts: %w".

`transform.ParseImageRef` and `helpers.Unique`/`helpers.Retry` are not under
`src/`; the parse enters as a parameter and the other two are modelled from
the spec. -/

/-- Modelled from the spec: `transform.Image` (not under `src/`) is a
normalized (registry, repository, tag-or-digest) triple together with its
normalized reference string, which is the dedup key. -/
structure Image where
  registry : String
  repository : String
  tagOrDigest : String
  reference : String
deriving DecidableEq

/-- The inner loop of the image collection in `Assemble`
(`creator/normal.go:137-143`): parse each declared image reference of one
component in declaration order; a parse failure aborts the build. -/
def parseImagesList (parse : String → Except String Image) :
    List String → Except String (List Image)
  | [] => .ok []
  | s :: ss =>
    match parse s with
    | .error e => .error ("failed to create ref for image " ++ s ++ ": " ++ e)
    | .ok r => (parseImagesList parse ss).map (fun l => r :: l)

/-- The outer loop of the image collection in `Assemble`: concatenate the
parsed image references of all components in package-declared component
order. -/
def assembleCollectImages (parse : String → Except String Image) :
    List ZarfComponent → Except String (List Image)
  | [] => .ok []
  | c :: cs =>
    match parseImagesList parse c.Images with
    | .error e => .error e
    | .ok refs => (assembleCollectImages parse cs).map (fun rest => refs ++ rest)

/-- Helper for `unique`: drop any element already seen, keeping first
occurrences. -/
def uniqueAux [DecidableEq α] : List α → List α → List α
  | _, [] => []
  | seen, x :: xs =>
    if x ∈ seen then uniqueAux seen xs else x :: uniqueAux (x :: seen) xs

/-- Modelled from the spec: `helpers.Unique` (not under `src/`) deduplicates
a list preserving first-seen order. -/
def unique [DecidableEq α] (l : List α) : List α := uniqueAux [] l

/-- The aggregated image list of `Assemble`
(`creator/normal.go:146`): `imageList = helpers.Unique(imageList)`. -/
def assembleImageList (parse : String → Except String Image)
    (comps : List ZarfComponent) : Except String (List Image) :=
  (assembleCollectImages parse comps).map unique

/-- Modelled from the spec: `helpers.Retry` (not under `src/`) runs `f` up
to the given number of attempts (`f k` is attempt number `k`), sleeping
`delay` between attempts after a failure, and returns the first success or
the last failure.  The returned list records the sleeps performed. -/
def retryRun (f : Nat → Except String α) (delay : Nat) :
    Nat → Nat → Except String α × List Nat
  | 0, _ => (.error "no attempts were configured", [])
  | 1, k => (f k, [])
  | n + 2, k =>
    match f k with
    | .ok a => (.ok a, [])
    | .error _ =>
      let r := retryRun f delay (n + 1) (k + 1)
      (r.1, delay :: r.2)

/-- The image-pull phase of `Assemble` (`creator/normal.go:150-183`):
nothing happens when the aggregated list is empty; otherwise the pull
(`doPull`, whose attempt `k` is `pull k`) runs under
`helpers.Retry(doPull, 3, 5*time.Second, ...)` and a final failure is
wrapped as "unable to pull images after 3 attempts".  Returns the phase
result paired with the sleeps performed between pull attempts. -/
def assembleImagesPhase (pull : Nat → Except String α)
    (imageList : List Image) : Except String (Option α) × List Nat :=
  if imageList.isEmpty then (.ok none, [])
  else
    match retryRun pull 5 3 0 with
    | (.ok a, sleeps) => (.ok (some a), sleeps)
    | (.error e, sleeps) => (.error ("unable to pull images after 3 attempts: " ++ e), sleeps)

/-- The `component.Repos` loop of `addComponent`
(`creator/normal.go:357-369`): each declared git repo is pulled exactly
once, in order, and the first failure aborts the component.  The trace
records the repo indices whose pull was attempted. -/
def processRepos (pullGit : Nat → String → Except String Unit) :
    Nat → List String → Except String Unit × List Nat
  | _, [] => (.ok (), [])
  | i, url :: urls =>
    match pullGit i url with
    | .error e => (.error ("unable to pull git repo " ++ url ++ ": " ++ e), [i])
    | .ok _ =>
      let r := processRepos pullGit (i + 1) urls
      (r.1, i :: r.2)

/-- An image reference kept verbatim as its normalized reference string. -/
def refOf (s : String) : Image :=
  { registry := "", repository := "", tagOrDigest := "", reference := s }

/-- A parse that accepts every reference verbatim. -/
def parseAsRef (s : String) : Except String Image := .ok (refOf s)

/-- The two components of the spec's dedup example: one declaring
`["a:1", "b:2", "a:1"]` and one declaring `["c:3"]`. -/
def exampleComponents : List ZarfComponent :=
  [{ Name := "one", Images := ["a:1", "b:2", "a:1"], Files := [], Repos := []
     Import := { path := "", url := "", name := "" } },
   { Name := "two", Images := ["c:3"], Files := [], Repos := []
     Import := { path := "", url := "", name := "" } }]

/-- A pull that fails on attempts 0 and 1 and succeeds on attempt 2. -/
def flakyPull (k : Nat) : Except String Nat :=
  if k < 2 then .error ("pull failed on attempt " ++ toString k) else .ok 42

/-- A pull that always fails, naming the offending image. -/
def alwaysFailPull (_k : Nat) : Except String Nat :=
  .error "image docker.io/library/nginx:1.25: connection reset"

/-! ## C5 / C6: the import chain (composer package)

An import chain is modelled as the list of its nodes' components, head
first; each node's `Import` is the directive that component declares (the
directive producing the *next* node).  `ContainsOCIImport` and
`fetchOCISkeleton` are in `src/` (the unnamed composer file); the chain
builder (`composer.NewImportChain`) and `oci.IsEmptyDescriptor` are not and
are modelled from the spec. -/

/-- `ImportChain.ContainsOCIImport` (composer file, lines 44-48):
`ic.tail.prev != nil && ic.tail.prev.Import.URL != ""` — true exactly when
the chain has at least two nodes and the second-to-last node declares a
remote import. -/
def containsOCIImport (chain : List ZarfComponent) : Bool :=
  match chain.reverse with
  | _tail :: prev :: _ => prev.Import.url != ""
  | _ => false

/-- An OCI content descriptor: digest and size. -/
structure OCIDescriptor where
  digest : String
  size : Nat
deriving DecidableEq

/-- Modelled from the spec: `oci.IsEmptyDescriptor` (not under `src/`) —
a descriptor is empty when it is the zero value, which is how a component
with no packaged files shows up in the remote root manifest. -/
def isEmptyDescriptor (d : OCIDescriptor) : Bool :=
  d.digest == "" && d.size == 0

/-- The on-disk OCI content cache: the set of blob digests present under
`cache/blobs/sha256/`. -/
structure CacheState where
  blobs : List String
deriving DecidableEq

/-- `ImportChain.fetchOCISkeleton` (composer file, lines 50-144), restricted
to its cache/network behavior.  `desc` is the located component descriptor
of the tail import.  Returns the new cache state and the number of network
copies performed: nothing is done without a remote import; an empty
descriptor only creates a directory (no fetch); an existing digest in the
content-addressed store is trusted and skipped (`store.Exists`); otherwise
the single descriptor is copied into the store. -/
def fetchOCISkeletonStep (chain : List ZarfComponent) (desc : OCIDescriptor)
    (st : CacheState) : CacheState × Nat :=
  if !containsOCIImport chain then (st, 0)
  else if isEmptyDescriptor desc then (st, 0)
  else if desc.digest ∈ st.blobs then (st, 0)
  else ({ blobs := desc.digest :: st.blobs }, 1)

/-- `Node.ImportName` — the imported component's name, with the directive's
optional name override applied.  Modelled from the spec (the composer node
methods are not under `src/`). -/
def importName (c : ZarfComponent) : String :=
  if c.Import.name != "" then c.Import.name else c.Name

/-- Modelled from the spec: the import-chain builder
(`composer.NewImportChain`, not under `src/`).  Starting from the head
component, follow import directives: a local import continues the chain via
`localLookup`; a remote (OCI) import resolves the imported component via
`remoteLookup` and terminates the chain — if that component itself declares
a remote import, chain resolution fails with the nested-remote-import
configuration error.  `fuel` bounds the local depth. -/
def buildChain (localLookup remoteLookup : String → String → Option ZarfComponent) :
    Nat → ZarfComponent → Except String (List ZarfComponent)
  | 0, _ => .error "import chain exceeds the maximum depth"
  | fuel + 1, c =>
    if c.Import.url != "" then
      match remoteLookup c.Import.url (importName c) with
      | none => .error ("published skeleton package for " ++ c.Import.url ++ " does not exist")
      | some rc =>
        if rc.Import.url != "" then
          .error "detected malformed import chain: cannot import remote components from remote components"
        else .ok [c, rc]
    else if c.Import.path != "" then
      match localLookup c.Import.path (importName c) with
      | none => .error ("could not find the component to import at " ++ c.Import.path)
      | some nc =>
        (buildChain localLookup remoteLookup fuel nc).map (fun rest => c :: rest)
    else
      .ok [c]

/-- A component declaring a remote (OCI) import. -/
def remoteImportingComp : ZarfComponent :=
  { Name := "x", Images := [], Files := [], Repos := []
    Import := { path := "", url := "oci://registry.example.com/skeleton", name := "" } }

/-- A component declaring no import. -/
def plainComp : ZarfComponent :=
  { Name := "y", Images := [], Files := [], Repos := []
    Import := { path := "", url := "", name := "" } }

/-- A two-node chain whose second-to-last node declares a remote import. -/
def exampleChain : List ZarfComponent := [remoteImportingComp, plainComp]

/-- A remote lookup resolving every url/name to the import-free component. -/
def remoteLookupPlain (_url _name : String) : Option ZarfComponent := some plainComp

/-- A remote lookup resolving every url/name to a component that itself
declares a remote import. -/
def remoteLookupNested (_url _name : String) : Option ZarfComponent :=
  some remoteImportingComp

/-- A local lookup that never resolves. -/
def localLookupNone (_p _n : String) : Option ZarfComponent := none

/-! ## C8: the layer loop of `pullOCIZarfPackage`
(`src/pkg/packager/oras.go` lines 156-190)

```go
for _, layer := range layers {
    path := filepath.Join(out, layer.Annotations[ocispec.AnnotationTitle])
    // if the file exists and the size matches, skip it
    info, err := os.Stat(path)
    if err == nil && info.Size() == layer.Size { ...; continue }
    layerContent, err := content.FetchAll(ctx, repo, layer)
    if err != nil { return err }
    ...
    file, err := os.Create(path)
    ...
    _, err = file.Write(layerContent)
    ...
}
```

The destination directory is modelled as an association list from path to
file content (`os.Stat` size = content length; `os.Create`+`Write` = cons,
shadowing any earlier entry); `content.FetchAll` enters as a parameter; the
create/write error paths and progress output are elided.  The returned
trace records the layers whose content was fetched over the network. -/

/-- An OCI layer descriptor: digest, size, and the title annotation the
destination filename is derived from. -/
structure LayerDesc where
  digest : String
  size : Nat
  title : String
deriving DecidableEq

/-- `filepath.Join(out, title)`. -/
def joinPath (out title : String) : String := out ++ "/" ++ title

/-- `os.Stat(path).Size()` over the modelled destination directory:
the stored content's length, or `none` when the file does not exist. -/
def statSize (fs : List (String × String)) (p : String) : Option Nat :=
  (fs.lookup p).map String.length

/-- The layer loop of `pullOCIZarfPackage`: skip a layer whose destination
file exists with exactly the descriptor's size (no fetch, no digest
re-verification); otherwise fetch its bytes and write them at the path
derived from the title annotation.  Returns the final directory state (or
the first fetch error) and the trace of fetched layers. -/
def pullLayers (fetch : LayerDesc → Except String String) (out : String) :
    List LayerDesc → List (String × String) →
    Except String (List (String × String)) × List LayerDesc
  | [], fs => (.ok fs, [])
  | l :: ls, fs =>
    if statSize fs (joinPath out l.title) = some l.size then
      pullLayers fetch out ls fs
    else
      match fetch l with
      | .error e => (.error e, [l])
      | .ok c =>
        let r := pullLayers fetch out ls ((joinPath out l.title, c) :: fs)
        (r.1, l :: r.2)

/-- A layer whose destination already holds 2 bytes. -/
def layerA : LayerDesc := { digest := "d1", size := 2, title := "a.txt" }

/-- A layer not yet present at the destination. -/
def layerB : LayerDesc := { digest := "d2", size := 3, title := "b.txt" }

/-- A fetch returning the bytes "yyy" for every layer. -/
def fetchYYY (_l : LayerDesc) : Except String String := .ok "yyy"

/-- A destination directory already holding `out/a.txt` with 2 bytes. -/
def outFS : List (String × String) := [("out/a.txt", "hi")]

/-! ## C9: the BigBang extension's version gate
(`src/extensions/bigbang/bigbang.go` lines 48-51 and 131-146)

```go
if !isValidVersion(cfg.Version) {
    return c, fmt.Errorf("invalid version: %s, must be at least 1.52.0", cfg.Version)
}
...
func isValidVersion(version string) bool {
    parts := strings.Split(version, ".")
    if len(parts) != 3 { return false }
    major, _ := strconv.Atoi(parts[0])
    minor, _ := strconv.Atoi(parts[1])
    return major >= 1 && minor >= 52
}
```
-/

/-- `strings.Split` on a one-character separator, over the character list
of the string (every separator occurrence splits; empty parts are kept). -/
def splitChar (sep : Char) : List Char → List (List Char)
  | [] => [[]]
  | c :: cs =>
    match splitChar sep cs with
    | [] => [[]]
    | g :: gs => if c = sep then [] :: g :: gs else (c :: g) :: gs

/-- `strings.Split(version, ".")`. -/
def goSplitDot (s : String) : List String :=
  (splitChar '.' s.data).map (fun cs => String.mk cs)

/-- Decimal digit test on a character. -/
def isDecDigit (c : Char) : Bool := 48 ≤ c.toNat && c.toNat ≤ 57

/-- A non-empty all-digit character list as a natural number, `none` on any
syntax error (Go `strconv.Atoi` rejects empty input and non-digits). -/
def decDigitsToNat (l : List Char) : Option Nat :=
  if l.isEmpty then none
  else if l.all isDecDigit then
    some (l.foldl (fun n c => n * 10 + (c.toNat - 48)) 0)
  else none

/-- Go's `strconv.Atoi` with its error ignored, as `isValidVersion` uses
it: base-10 integer with optional sign; any syntax error yields 0.  (Go
clamps out-of-range values to the int64 bounds while this model keeps the
exact integer; both agree on the comparisons against 1 and 52 for every
input.) -/
def goAtoi (s : String) : Int :=
  match s.data with
  | '-' :: rest =>
    (match decDigitsToNat rest with
     | some n => -(n : Int)
     | none => 0)
  | '+' :: rest =>
    (match decDigitsToNat rest with
     | some n => (n : Int)
     | none => 0)
  | l =>
    (match decDigitsToNat l with
     | some n => (n : Int)
     | none => 0)

/-- `bigbang.isValidVersion`: split on "." into exactly three parts and
require major ≥ 1 and minor ≥ 52, errors from `Atoi` ignored. -/
def isValidVersion (version : String) : Bool :=
  let parts := goSplitDot version
  if parts.length != 3 then false
  else
    let major := goAtoi (parts.getD 0 "")
    let minor := goAtoi (parts.getD 1 "")
    decide (major ≥ 1) && decide (minor ≥ 52)

/-- The version gate at the top of `bigbang.Run`
(`bigbang.go:48-51`): reject the component when `isValidVersion` fails,
with an error message that requires only "at least 1.52.0". -/
def bigbangRunVersionGate (version : String) : Except String Unit :=
  if !isValidVersion version then
    .error ("invalid version: " ++ version ++ ", must be at least 1.52.0")
  else
    .ok ()

/-! ## C10: `zarf generate package` (`src/cmd/generate.go` lines 32-77)

The command stats the destination zarf yaml.  If it exists, it is parsed
(a parse failure is fatal), only `Metadata.Name` is replaced by the
package-name argument, and the package is written back.  If it does not
exist, a fresh zero-value package with only `Metadata.Name` and
`Kind = "ZarfPackageConfig"` set is written.  Any other stat error is
fatal.  The stat/parse outcome enters as a parameter; the returned package
is the document handed to `utils.WriteYaml`. -/

/-- The outcome of `os.Stat` on the destination plus, when the file
exists, the outcome of `utils.ReadYaml` on it. -/
inductive StatResult where
  | found (parse : Except String ZarfPackage)
  | notExists
  | statErr (e : String)

/-- The body of `generatePackageCmd.Run`: the package written to the
destination, or the fatal error. -/
def generatePackage (stat : StatResult) (packageName : String) :
    Except String ZarfPackage :=
  match stat with
  | .found (.error e) => .error e
  | .found (.ok p) =>
    .ok { p with Metadata := { p.Metadata with Name := packageName } }
  | .notExists =>
    .ok { ZarfPackage.zero with
          Kind := "ZarfPackageConfig"
          Metadata := { ZarfPackage.zero.Metadata with Name := packageName } }
  | .statErr e => .error ("Unkown error when checking for specified zarf file: " ++ e)

end EdgeGraviton

namespace EdgeGraviton

/-! ## Theorems -/

/-- C1 counterexample: when both the differential package version and the
target package's `Metadata.Version` are the empty string, the differential
branch of `LoadPackageDefinition` fails with the *same-version* error (the
equality check runs first), not the *no-version-set* error the claim
requires whenever either version is empty. -/
theorem c1_counterexample :
    loadPackageDefinitionDifferential (.ok ⟨""⟩) (fun p _ => .ok p)
      diffPkgNoVersion diffPkgNoVersion
      = .error .differentialSameVersion ∧
    loadPackageDefinitionDifferential (.ok ⟨""⟩) (fun p _ => .ok p)
      diffPkgNoVersion diffPkgNoVersion
      ≠ .error .differentialNoVersion := by
  constructor
  · rfl
  · intro h
    rw [show loadPackageDefinitionDifferential (.ok ⟨""⟩) (fun p _ => .ok p)
          diffPkgNoVersion diffPkgNoVersion
          = .error .differentialSameVersion from rfl] at h
    simp at h

/-- C1 (amended): with the differential flag enabled and the differential
data loaded, `LoadPackageDefinition` fails with the same-version error
whenever the differential package version equals the target package's
`Metadata.Version` (including when both are empty); it fails with the
no-version-set error when the versions differ and either is empty
(equivalently, when exactly one is empty); and only with two distinct
non-empty versions does it proceed to
`removeCopiesFromDifferentialPackage`. -/
theorem c1_differential_version_checks
    (removeCopies : ZarfPackage → ZarfDifferentialData → Except String ZarfPackage)
    (dd : ZarfDifferentialData) (pkg extendedPkg : ZarfPackage)
    (hdiff : pkg.Build.Differential = true) :
    (dd.DifferentialPackageVersion = pkg.Metadata.Version →
      loadPackageDefinitionDifferential (.ok dd) removeCopies pkg extendedPkg
        = .error .differentialSameVersion) ∧
    (dd.DifferentialPackageVersion ≠ pkg.Metadata.Version →
      (dd.DifferentialPackageVersion = "" ∨ pkg.Metadata.Version = "") →
      loadPackageDefinitionDifferential (.ok dd) removeCopies pkg extendedPkg
        = .error .differentialNoVersion) ∧
    (dd.DifferentialPackageVersion ≠ pkg.Metadata.Version →
      dd.DifferentialPackageVersion ≠ "" → pkg.Metadata.Version ≠ "" →
      loadPackageDefinitionDifferential (.ok dd) removeCopies pkg extendedPkg
        = match removeCopies extendedPkg dd with
          | .error e => .error (.removeCopiesErr e)
          | .ok diffPkg => .ok diffPkg) := by
  refine ⟨fun h => ?_, fun hne hemp => ?_, fun hne h1 h2 => ?_⟩
  · simp [loadPackageDefinitionDifferential, hdiff, h]
  · have hb1 : (dd.DifferentialPackageVersion == pkg.Metadata.Version) = false := by
      simp [hne]
    rcases hemp with hemp | hemp
    · simp [loadPackageDefinitionDifferential, hdiff, hb1, hemp]
      exact fun h => hne (hemp.trans h)
    · simp [loadPackageDefinitionDifferential, hdiff, hb1, hemp]
      exact fun h => hne (h.trans hemp.symm)
  · simp [loadPackageDefinitionDifferential, hdiff, hne, h1, h2]

/-- Witness for `c1_differential_version_checks` at concrete inputs: equal
versions give the same-version error, a differential version empty against
"2.0.0" gives the no-version-set error, and two distinct non-empty versions
proceed to the duplicate removal. -/
theorem c1_differential_version_checks_witness :
    loadPackageDefinitionDifferential (.ok ⟨"2.0.0"⟩) (fun p _ => .ok p)
      diffPkgV2 diffPkgV2 = .error .differentialSameVersion ∧
    loadPackageDefinitionDifferential (.ok ⟨""⟩) (fun p _ => .ok p)
      diffPkgV2 diffPkgV2 = .error .differentialNoVersion ∧
    loadPackageDefinitionDifferential (.ok ⟨"1.0.0"⟩) (fun p _ => .ok p)
      diffPkgV2 diffPkgV2 = .ok diffPkgV2 := by
  refine ⟨(c1_differential_version_checks (fun p _ => .ok p) ⟨"2.0.0"⟩
            diffPkgV2 diffPkgV2 rfl).1 rfl,
          (c1_differential_version_checks (fun p _ => .ok p) ⟨""⟩
            diffPkgV2 diffPkgV2 rfl).2.1 (by decide) (Or.inl rfl),
          ((c1_differential_version_checks (fun p _ => .ok p) ⟨"1.0.0"⟩
            diffPkgV2 diffPkgV2 rfl).2.2 (by decide) (by decide) (by decide)).trans rfl⟩

/-- Inversion for one loop iteration: a successful `processFile` pins down
the placed file's index, a successful single materialization, the checksum
gate for declared checksums, and the final mode. -/
theorem processFile_ok_inv (env : FileEnv) (idx : Nat) (file : ZarfFile)
    (pf : PlacedFile) (h : processFile env idx file = .ok pf) :
    pf.idx = idx ∧
    env.fetch idx file.Source = .ok pf.content ∧
    (file.Shasum ≠ "" → env.hash pf.content = file.Shasum) ∧
    pf.mode = (if file.Executable || env.isDir idx then 0o700 else 0o600) := by
  unfold processFile at h
  split at h
  · exact absurd h (by simp)
  rename_i content hfetch
  split at h
  · exact absurd h (by simp)
  rename_i u hsha
  injection h with h
  subst h
  refine ⟨rfl, hfetch, fun hne => ?_, rfl⟩
  have hb : (file.Shasum != "") = true := by simp [hne]
  rw [if_pos hb] at hsha
  unfold shasMatch at hsha
  rcases hbeq : (env.hash content == file.Shasum) with _ | _
  · rw [if_neg (by simp [hbeq])] at hsha
    exact absurd hsha (by simp)
  · simpa using hbeq

/-- Every placed file in a successful run of the file loop comes from a
successful `processFile` at its position: placed file `pf` corresponds to
input file `j` with `pf.idx = start + j`. -/
theorem processFilesAux_ok_mem (env : FileEnv) :
    ∀ (files : List ZarfFile) (start : Nat) (placed : List PlacedFile),
    (processFilesAux env start files).1 = .ok placed →
    ∀ pf ∈ placed, ∃ j, ∃ hj : j < files.length,
      pf.idx = start + j ∧
      processFile env (start + j) (files.get ⟨j, hj⟩) = .ok pf
  | [], start, placed => by
    intro h pf hpf
    simp [processFilesAux] at h
    subst h
    exact absurd hpf (by simp)
  | f :: fs, start, placed => by
    intro h pf hpf
    unfold processFilesAux at h
    rcases hp : processFile env start f with e | pf0
    · rw [hp] at h; exact absurd h (by simp)
    · rw [hp] at h
      simp only [Except.map] at h
      rcases hr : (processFilesAux env (start + 1) fs).1 with e | rest
      · rw [hr] at h; exact absurd h (by simp)
      · rw [hr] at h
        cases h
        rcases List.mem_cons.mp hpf with hpf | hpf
        · subst hpf
          refine ⟨0, by simp, ?_, ?_⟩
          · have := (processFile_ok_inv env start f pf hp).1
            omega
          · simpa using hp
        · obtain ⟨j, hj, hidx, hpj⟩ :=
            processFilesAux_ok_mem env fs (start + 1) rest hr pf hpf
          refine ⟨j + 1, by simpa using hj, by omega, ?_⟩
          have heq : start + 1 + j = start + (j + 1) := by omega
          rw [heq] at hpj
          simpa using hpj

/-- C2: the checksum integrity gate of `addComponent`.  (a) In any
successful run of the file loop, every placed file whose entry declares a
non-empty checksum has content whose hash equals the declared value — a
mismatched file is never part of the output.  (b) A file with a declared
checksum whose materialized content hashes to a different value makes the
loop return the integrity error, failing the build.  (c) A file with no
declared checksum is not subject to the gate: the loop succeeds for it
whenever materialization succeeds, regardless of its hash. -/
theorem c2_checksum_gate (env : FileEnv) :
    (∀ (files : List ZarfFile) (placed : List PlacedFile),
      (processFiles env files).1 = .ok placed →
      ∀ pf ∈ placed, ∀ hj : pf.idx < files.length,
        (files.get ⟨pf.idx, hj⟩).Shasum ≠ "" →
        env.hash pf.content = (files.get ⟨pf.idx, hj⟩).Shasum) ∧
    (∀ (f : ZarfFile) (content : String),
      env.fetch 0 f.Source = .ok content →
      f.Shasum ≠ "" → env.hash content ≠ f.Shasum →
      (processFiles env [f]).1
        = .error ("shasum mismatch: expected " ++ f.Shasum)) ∧
    (∀ (f : ZarfFile) (content : String),
      env.fetch 0 f.Source = .ok content →
      f.Shasum = "" →
      (processFiles env [f]).1
        = .ok [{ idx := 0, content := content
                 mode := if f.Executable || env.isDir 0 then 0o700
                         else 0o600 }]) := by
  refine ⟨fun files placed h pf hpf hj hsha => ?_, fun f content hf hs hm => ?_,
          fun f content hf hs => ?_⟩
  · obtain ⟨j, hjlen, hidx, hpj⟩ :=
      processFilesAux_ok_mem env files 0 placed h pf hpf
    have hj0 : pf.idx = j := by omega
    have hget : files.get ⟨pf.idx, hj⟩ = files.get ⟨j, hjlen⟩ := by
      congr 1
      exact Fin.ext hj0
    rw [hget] at hsha ⊢
    exact (processFile_ok_inv env (0 + j) (files.get ⟨j, hjlen⟩) pf hpj).2.2.1 hsha
  · have hs' : (f.Shasum != "") = true := by simp [hs]
    have hm' : (env.hash content == f.Shasum) = false := by simp [hm]
    simp [processFiles, processFilesAux, processFile, hf, hs', shasMatch, hm']
  · have hs' : (f.Shasum != "") = false := by simp [hs]
    simp [processFiles, processFilesAux, processFile, hf, hs', Except.map]

/-- Witness for `c2_checksum_gate`: with hash `h c = "H" ++ c`, the entry
declaring checksum "deadbeef" for content "hi" fails the loop with the
integrity error, and an entry with no declared checksum is placed
unchecked. -/
theorem c2_checksum_gate_witness :
    (processFiles hashFileEnv
        [{ Source := "s", Target := "t", Shasum := "deadbeef"
           Executable := false }]).1
      = .error ("shasum mismatch: expected " ++ "deadbeef") ∧
    (processFiles hashFileEnv
        [{ Source := "s", Target := "t", Shasum := "", Executable := false }]).1
      = .ok [{ idx := 0, content := "hi", mode := 0o600 }] := by
  constructor
  · exact (c2_checksum_gate hashFileEnv).2.1
      { Source := "s", Target := "t", Shasum := "deadbeef", Executable := false }
      "hi" rfl (by decide) (by decide)
  · have := (c2_checksum_gate hashFileEnv).2.2
      { Source := "s", Target := "t", Shasum := "", Executable := false }
      "hi" rfl rfl
    simpa using this

/-- C7: the file-mode policy of `addComponent`.  In any successful run of
the file loop, every placed file's mode is 0700 when its entry is declared
executable or its destination is a directory, and 0600 otherwise. -/
theorem c7_file_mode_policy (env : FileEnv)
    (files : List ZarfFile) (placed : List PlacedFile)
    (h : (processFiles env files).1 = .ok placed) :
    ∀ pf ∈ placed, ∀ hj : pf.idx < files.length,
      pf.mode = (if (files.get ⟨pf.idx, hj⟩).Executable || env.isDir pf.idx
                 then 0o700 else 0o600) := by
  intro pf hpf hj
  obtain ⟨j, hjlen, hidx, hpj⟩ :=
    processFilesAux_ok_mem env files 0 placed h pf hpf
  have hj0 : pf.idx = j := by omega
  have hget : files.get ⟨pf.idx, hj⟩ = files.get ⟨j, hjlen⟩ := by
    congr 1
    exact Fin.ext hj0
  rw [hget]
  have hm := (processFile_ok_inv env (0 + j) (files.get ⟨j, hjlen⟩) pf hpj).2.2.2
  rw [hm]
  have hzj : 0 + j = pf.idx := by omega
  rw [hzj]

/-- Witness for `c7_file_mode_policy`: the executable entry of `exeFiles`
gets mode 0700. -/
theorem c7_file_mode_policy_witness :
    ({ idx := 0, content := "hi", mode := 0o700 : PlacedFile }).mode
      = (if (exeFiles.get ⟨0, by decide⟩).Executable || hashFileEnv.isDir 0
         then 0o700 else 0o600) := by
  have h := c7_file_mode_policy hashFileEnv exeFiles
    [{ idx := 0, content := "hi", mode := 0o700 },
     { idx := 1, content := "hi", mode := 0o600 }]
    rfl
    { idx := 0, content := "hi", mode := 0o700 }
    (by simp)
    (by decide)
  exact h

/-- Membership in `uniqueAux`: an element occurs in the result exactly when
it occurs in the input and was not already seen. -/
theorem mem_uniqueAux [DecidableEq α] (x : α) :
    ∀ (l seen : List α), x ∈ uniqueAux seen l ↔ x ∈ l ∧ x ∉ seen
  | [], seen => by simp [uniqueAux]
  | y :: ys, seen => by
    by_cases hy : y ∈ seen
    · rw [uniqueAux, if_pos hy, mem_uniqueAux x ys seen]
      constructor
      · rintro ⟨h1, h2⟩
        exact ⟨List.mem_cons_of_mem _ h1, h2⟩
      · rintro ⟨h1, h2⟩
        rcases List.mem_cons.mp h1 with rfl | h1
        · exact absurd hy h2
        · exact ⟨h1, h2⟩
    · rw [uniqueAux, if_neg hy]
      constructor
      · intro h
        rcases List.mem_cons.mp h with rfl | h
        · exact ⟨List.mem_cons_self _ _, hy⟩
        · have hx := (mem_uniqueAux x ys (y :: seen)).mp h

          exact ⟨List.mem_cons_of_mem _ hx.1,
                 fun hmem => hx.2 (List.mem_cons_of_mem _ hmem)⟩
      · rintro ⟨h1, h2⟩
        rcases List.mem_cons.mp h1 with rfl | h1
        · exact List.mem_cons_self _ _
        · by_cases hxy : x = y
          · subst hxy
            exact List.mem_cons_self _ _
          · refine List.mem_cons_of_mem _
              ((mem_uniqueAux x ys (y :: seen)).mpr ⟨h1, fun hx => ?_⟩)
            rcases List.mem_cons.mp hx with h | h
            · exact hxy h
            · exact h2 h

/-- `uniqueAux` returns a sublist of its input: order is preserved. -/
theorem uniqueAux_sublist [DecidableEq α] :
    ∀ (l seen : List α), (uniqueAux seen l).Sublist l
  | [], seen => by simp [uniqueAux]
  | y :: ys, seen => by
    rw [uniqueAux]
    by_cases hy : y ∈ seen
    · rw [if_pos hy]
      exact List.Sublist.cons y (uniqueAux_sublist ys seen)
    · rw [if_neg hy]
      exact List.Sublist.cons₂ y (uniqueAux_sublist ys (y :: seen))

/-- `uniqueAux` has no duplicates. -/
theorem uniqueAux_nodup [DecidableEq α] :
    ∀ (l seen : List α), (uniqueAux seen l).Nodup
  | [], seen => by simp [uniqueAux]
  | y :: ys, seen => by
    rw [uniqueAux]
    by_cases hy : y ∈ seen
    · rw [if_pos hy]
      exact uniqueAux_nodup ys seen
    · rw [if_neg hy]
      refine List.nodup_cons.mpr ⟨fun hmem => ?_, uniqueAux_nodup ys (y :: seen)⟩
      exact ((mem_uniqueAux y ys (y :: seen)).mp hmem).2 (List.mem_cons_self _ _)

/-- C3: the image aggregation of `Assemble`.  When the per-component
collection (package-declared component order, per-component declaration
order) succeeds with list `all`, the aggregated image list is
`unique all`: duplicate-free, a sublist of the collected list (so first-seen
order is preserved), and containing exactly the collected references. -/
theorem c3_image_dedup (parse : String → Except String Image)
    (comps : List ZarfComponent) (all : List Image)
    (h : assembleCollectImages parse comps = .ok all) :
    assembleImageList parse comps = .ok (unique all) ∧
    (unique all).Nodup ∧
    (unique all).Sublist all ∧
    (∀ r, r ∈ unique all ↔ r ∈ all) := by
  refine ⟨?_, uniqueAux_nodup all [], uniqueAux_sublist all [], fun r => ?_⟩
  · unfold assembleImageList
    rw [h]
    rfl
  · rw [unique, mem_uniqueAux]
    simp

/-- Witness for `c3_image_dedup`: components declaring
`["a:1", "b:2", "a:1"]` and `["c:3"]` aggregate to
`["a:1", "b:2", "c:3"]` in first-seen order. -/
theorem c3_image_dedup_witness :
    assembleImageList parseAsRef exampleComponents
      = .ok [refOf "a:1", refOf "b:2", refOf "c:3"] ∧
    (unique [refOf "a:1", refOf "b:2", refOf "a:1", refOf "c:3"]).Nodup := by
  have h := c3_image_dedup parseAsRef exampleComponents
    [refOf "a:1", refOf "b:2", refOf "a:1", refOf "c:3"] rfl
  refine ⟨h.1.trans ?_, h.2.1⟩
  exact congrArg Except.ok (by decide)

/-- Every index in the file-loop trace is at least the starting index. -/
theorem processFilesAux_trace_ge (env : FileEnv) :
    ∀ (files : List ZarfFile) (start : Nat) (j : Nat),
      j ∈ (processFilesAux env start files).2 → start ≤ j
  | [], start, j => by
    simp [processFilesAux]
  | f :: fs, start, j => by
    intro hj
    rcases hp : processFile env start f with e | pf <;>
      simp [processFilesAux, hp] at hj
    · omega
    · rcases hj with rfl | hj
      · exact le_refl _
      · have := processFilesAux_trace_ge env fs (start + 1) j hj
        omega

/-- The file loop attempts each file's materialization at most once: the
trace of attempted indices has no duplicates. -/
theorem processFilesAux_trace_nodup (env : FileEnv) :
    ∀ (files : List ZarfFile) (start : Nat),
      ((processFilesAux env start files).2).Nodup
  | [], start => by simp [processFilesAux]
  | f :: fs, start => by
    rcases hp : processFile env start f with e | pf
    · simp [processFilesAux, hp]
    · simp only [processFilesAux, hp]
      refine List.nodup_cons.mpr ⟨fun hmem => ?_, processFilesAux_trace_nodup env fs (start + 1)⟩
      have := processFilesAux_trace_ge env fs (start + 1) start hmem
      omega

/-- Every index in the repo-loop trace is at least the starting index. -/
theorem processRepos_trace_ge (g : Nat → String → Except String Unit) :
    ∀ (urls : List String) (start : Nat) (j : Nat),
      j ∈ (processRepos g start urls).2 → start ≤ j
  | [], start, j => by
    simp [processRepos]
  | u :: us, start, j => by
    intro hj
    rcases hp : g start u with e | v <;>
      simp [processRepos, hp] at hj
    · omega
    · rcases hj with rfl | hj
      · exact le_refl _
      · have := processRepos_trace_ge g us (start + 1) j hj
        omega

/-- The repo loop attempts each git pull at most once: the trace of
attempted indices has no duplicates. -/
theorem processRepos_trace_nodup (g : Nat → String → Except String Unit) :
    ∀ (urls : List String) (start : Nat),
      ((processRepos g start urls).2).Nodup
  | [], start => by simp [processRepos]
  | u :: us, start => by
    rcases hp : g start u with e | v
    · simp [processRepos, hp]
    · simp only [processRepos, hp]
      refine List.nodup_cons.mpr ⟨fun hmem => ?_, processRepos_trace_nodup g us (start + 1)⟩
      have := processRepos_trace_ge g us (start + 1) start hmem
      omega

/-- C4: the bounded retry of the image pull in `Assemble`.  For a non-empty
aggregated image list, with the first two pull attempts failing: a success
on the third attempt makes the phase succeed after two 5-second backoffs;
a failure on the third attempt fails the phase with the wrapping error
"unable to pull images after 3 attempts" carrying the underlying
image-naming error, after the same two 5-second backoffs (no fourth attempt
is consulted).  Moreover no other resolver in the assembly path retries:
the file loop and the git-repo loop each attempt every item's resolution at
most once. -/
theorem c4_pull_retry (pull : Nat → Except String α) (l : List Image)
    (hl : l ≠ []) (e0 e1 : String)
    (h0 : pull 0 = .error e0) (h1 : pull 1 = .error e1) :
    (∀ a, pull 2 = .ok a →
      assembleImagesPhase pull l = (.ok (some a), [5, 5])) ∧
    (∀ e2, pull 2 = .error e2 →
      assembleImagesPhase pull l
        = (.error ("unable to pull images after 3 attempts: " ++ e2), [5, 5])) ∧
    (∀ (env : FileEnv) (files : List ZarfFile),
      ((processFiles env files).2).Nodup) ∧
    (∀ (g : Nat → String → Except String Unit) (urls : List String),
      ((processRepos g 0 urls).2).Nodup) := by
  have hb : l.isEmpty = false := by
    cases l with
    | nil => exact absurd rfl hl
    | cons a as => rfl
  have h3 : retryRun pull 5 3 0 = (pull 2, [5, 5]) := by
    simp only [show (3 : Nat) = 1 + 2 from rfl, retryRun, h0, h1]
  refine ⟨fun a h2 => ?_, fun e2 h2 => ?_,
          fun env files => processFilesAux_trace_nodup env files 0,
          fun g urls => processRepos_trace_nodup g urls 0⟩
  · simp [assembleImagesPhase, hb, h3, h2]
  · simp [assembleImagesPhase, hb, h3, h2]

/-- Witness for `c4_pull_retry`: a pull failing twice then succeeding
completes the phase with two 5-second backoffs; a persistently failing pull
fails the phase with the wrapped image-naming error. -/
theorem c4_pull_retry_witness :
    assembleImagesPhase flakyPull [refOf "a:1"] = (.ok (some 42), [5, 5]) ∧
    assembleImagesPhase alwaysFailPull [refOf "a:1"]
      = (.error ("unable to pull images after 3 attempts: "
          ++ "image docker.io/library/nginx:1.25: connection reset"), [5, 5]) := by
  constructor
  · exact (c4_pull_retry flakyPull [refOf "a:1"] (List.cons_ne_nil _ _)
      ("pull failed on attempt " ++ toString 0) ("pull failed on attempt " ++ toString 1)
      rfl rfl).1 42 rfl
  · exact (c4_pull_retry alwaysFailPull [refOf "a:1"] (List.cons_ne_nil _ _)
      "image docker.io/library/nginx:1.25: connection reset"
      "image docker.io/library/nginx:1.25: connection reset"
      rfl rfl).2.1 "image docker.io/library/nginx:1.25: connection reset" rfl

/-- C5: idempotence of the OCI skeleton cache population.  With a remote
skeleton import present and a non-empty descriptor: a digest already in the
content-addressed store causes no network copy; a missing digest causes
exactly one; and a second resolution of the same digest always causes none,
so two resolutions perform at most one network copy in total. -/
theorem c5_oci_cache_idempotent (chain : List ZarfComponent)
    (desc : OCIDescriptor) (st : CacheState)
    (hc : containsOCIImport chain = true)
    (hne : isEmptyDescriptor desc = false) :
    (desc.digest ∈ st.blobs → (fetchOCISkeletonStep chain desc st).2 = 0) ∧
    (desc.digest ∉ st.blobs → (fetchOCISkeletonStep chain desc st).2 = 1) ∧
    (fetchOCISkeletonStep chain desc (fetchOCISkeletonStep chain desc st).1).2 = 0 ∧
    (fetchOCISkeletonStep chain desc st).2
      + (fetchOCISkeletonStep chain desc (fetchOCISkeletonStep chain desc st).1).2 ≤ 1 := by
  by_cases hmem : desc.digest ∈ st.blobs
  · have h1 : fetchOCISkeletonStep chain desc st = (st, 0) := by
      simp [fetchOCISkeletonStep, hc, hne, hmem]
    refine ⟨fun _ => by rw [h1], fun hn => absurd hmem hn, ?_, ?_⟩
    · rw [h1]
      simp [fetchOCISkeletonStep, hc, hne, hmem]
    · rw [h1]
      simp [fetchOCISkeletonStep, hc, hne, hmem]
  · have h1 : fetchOCISkeletonStep chain desc st
        = ({ blobs := desc.digest :: st.blobs }, 1) := by
      simp [fetchOCISkeletonStep, hc, hne, hmem]
    have hmem2 : desc.digest ∈ (desc.digest :: st.blobs) := List.mem_cons_self _ _
    refine ⟨fun hm => absurd hm hmem, fun _ => by rw [h1], ?_, ?_⟩
    · rw [h1]
      simp [fetchOCISkeletonStep, hc, hne]
    · rw [h1]
      simp [fetchOCISkeletonStep, hc, hne]

/-- Witness for `c5_oci_cache_idempotent`: resolving digest "abc" twice
from an empty cache fetches on the first resolution and skips on the
second. -/
theorem c5_oci_cache_idempotent_witness :
    (fetchOCISkeletonStep exampleChain ⟨"abc", 3⟩ ⟨[]⟩).2 = 1 ∧
    (fetchOCISkeletonStep exampleChain ⟨"abc", 3⟩
      (fetchOCISkeletonStep exampleChain ⟨"abc", 3⟩ ⟨[]⟩).1).2 = 0 := by
  have h := c5_oci_cache_idempotent exampleChain ⟨"abc", 3⟩ ⟨[]⟩ rfl rfl
  exact ⟨h.2.1 (by simp), h.2.2.1⟩

/-- In any successfully built chain, a node declaring a remote import can
only sit at the second-to-last position. -/
theorem buildChain_remote_second_to_last
    (localLookup remoteLookup : String → String → Option ZarfComponent) :
    ∀ (fuel : Nat) (c : ZarfComponent) (chain : List ZarfComponent),
      buildChain localLookup remoteLookup fuel c = .ok chain →
      ∀ i (hi : i < chain.length),
        (chain.get ⟨i, hi⟩).Import.url ≠ "" → i + 2 = chain.length
  | 0, c, chain => by
    intro h
    exact absurd h (by simp [buildChain])
  | fuel + 1, c, chain => by
    intro h i hi hurl
    unfold buildChain at h
    by_cases hu : (c.Import.url != "") = true
    · rw [if_pos hu] at h
      rcases hr : remoteLookup c.Import.url (importName c) with _ | rc
      · simp only [hr] at h
        exact absurd h (by simp)
      · simp only [hr] at h
        by_cases hrc : (rc.Import.url != "") = true
        · rw [if_pos hrc] at h
          exact absurd h (by simp)
        · rw [if_neg hrc] at h
          injection h with h
          subst h
          match i, hi with
          | 0, _ => rfl
          | 1, _ =>
            exact absurd (by simpa using hurl) (by simpa using hrc)
    · rw [if_neg hu] at h
      by_cases hp : (c.Import.path != "") = true
      · rw [if_pos hp] at h
        rcases hl : localLookup c.Import.path (importName c) with _ | nc
        · simp only [hl] at h
          exact absurd h (by simp)
        · simp only [hl] at h
          rcases hb : buildChain localLookup remoteLookup fuel nc with e | rest
          · simp only [hb, Except.map] at h
            exact absurd h (by simp)
          · simp only [hb, Except.map] at h
            injection h with h
            subst h
            cases i with
            | zero =>
              exact absurd (by simpa using hurl) (by simpa using hu)
            | succ j =>
              have hj : j < rest.length := by simpa using hi
              have := buildChain_remote_second_to_last localLookup remoteLookup
                fuel nc rest hb j hj (by simpa using hurl)
              simp only [List.length_cons]
              omega
      · rw [if_neg hp] at h
        injection h with h
        subst h
        match i, hi with
        | 0, _ =>
          exact absurd (by simpa using hurl) (by simpa using hu)

/-- C6: only the second-to-last node of an import chain may reference a
remote (OCI) import.  (a) In every successfully resolved chain, any node
declaring a remote import sits exactly at the second-to-last position.
(b) When a component imports from a remote package and the resolved remote
component itself declares a remote import, chain resolution fails with the
explicit nested-remote-import configuration error — it is not truncated.
(c) A chain successfully built from a remote-importing head is recognized
by `ContainsOCIImport`. -/
theorem c6_single_remote_import_at_tail
    (localLookup remoteLookup : String → String → Option ZarfComponent) :
    (∀ (fuel : Nat) (c : ZarfComponent) (chain : List ZarfComponent),
      buildChain localLookup remoteLookup fuel c = .ok chain →
      ∀ i (hi : i < chain.length),
        (chain.get ⟨i, hi⟩).Import.url ≠ "" → i + 2 = chain.length) ∧
    (∀ (fuel : Nat) (c rc : ZarfComponent),
      c.Import.url ≠ "" →
      remoteLookup c.Import.url (importName c) = some rc →
      rc.Import.url ≠ "" →
      buildChain localLookup remoteLookup (fuel + 1) c
        = .error "detected malformed import chain: cannot import remote components from remote components") ∧
    (∀ (fuel : Nat) (c : ZarfComponent) (chain : List ZarfComponent),
      buildChain localLookup remoteLookup (fuel + 1) c = .ok chain →
      c.Import.url ≠ "" → containsOCIImport chain = true) := by
  refine ⟨buildChain_remote_second_to_last localLookup remoteLookup,
          fun fuel c rc hu hr hrc => ?_, fun fuel c chain h hu => ?_⟩
  · have hu' : (c.Import.url != "") = true := by simp [hu]
    have hrc' : (rc.Import.url != "") = true := by simp [hrc]
    simp [buildChain, hu', hr, hrc']
  · have hu' : (c.Import.url != "") = true := by simp [hu]
    unfold buildChain at h
    rw [if_pos hu'] at h
    rcases hr : remoteLookup c.Import.url (importName c) with _ | rc
    · simp only [hr] at h
      exact absurd h (by simp)
    · simp only [hr] at h
      by_cases hrc : (rc.Import.url != "") = true
      · rw [if_pos hrc] at h
        exact absurd h (by simp)
      · rw [if_neg hrc] at h
        injection h with h
        subst h
        simpa [containsOCIImport] using hu'

/-- Witness for `c6_single_remote_import_at_tail`: the remote-importing
head resolves to the two-node `exampleChain` (remote import at
second-to-last, position 0 of length 2), `ContainsOCIImport` holds of it,
and the same head against a remote component that itself declares a
remote import fails with the nested-remote-import error. -/
theorem c6_single_remote_import_at_tail_witness :
    (0 + 2 = exampleChain.length) ∧
    buildChain localLookupNone remoteLookupNested 5 remoteImportingComp
      = .error "detected malformed import chain: cannot import remote components from remote components" ∧
    containsOCIImport exampleChain = true := by
  have hok : buildChain localLookupNone remoteLookupPlain 5 remoteImportingComp
      = .ok exampleChain := rfl
  refine ⟨?_, ?_, ?_⟩
  · exact (c6_single_remote_import_at_tail localLookupNone remoteLookupPlain).1
      5 remoteImportingComp exampleChain hok 0 (by decide) (by decide)
  · exact (c6_single_remote_import_at_tail localLookupNone remoteLookupNested).2.1
      4 remoteImportingComp remoteImportingComp (by decide) rfl (by decide)
  · exact (c6_single_remote_import_at_tail localLookupNone remoteLookupPlain).2.2
      4 remoteImportingComp exampleChain hok (by decide)

/-- Every layer in the fetch trace of the layer loop is one of the input
layers. -/
theorem pullLayers_trace_subset (fetch : LayerDesc → Except String String)
    (out : String) :
    ∀ (layers : List LayerDesc) (fs : List (String × String)) (l : LayerDesc),
      l ∈ (pullLayers fetch out layers fs).2 → l ∈ layers
  | [], fs, l => by simp [pullLayers]
  | l0 :: ls, fs, l => by
    intro hl
    unfold pullLayers at hl
    by_cases hs : statSize fs (joinPath out l0.title) = some l0.size
    · rw [if_pos hs] at hl
      exact List.mem_cons_of_mem _ (pullLayers_trace_subset fetch out ls fs l hl)
    · rw [if_neg hs] at hl
      rcases hf : fetch l0 with e | c
      · simp only [hf] at hl
        simp at hl
        subst hl
        exact List.mem_cons_self _ _
      · simp only [hf] at hl
        simp only [List.mem_cons] at hl ⊢
        rcases hl with rfl | hl
        · exact Or.inl rfl
        · exact Or.inr (pullLayers_trace_subset fetch out ls _ l hl)

/-- The layer loop only writes at the paths of its input layers: any other
path's content is unchanged in a successful run. -/
theorem pullLayers_frame (fetch : LayerDesc → Except String String)
    (out : String) :
    ∀ (layers : List LayerDesc) (fs fs' : List (String × String)) (p : String),
      (pullLayers fetch out layers fs).1 = .ok fs' →
      p ∉ layers.map (fun l => joinPath out l.title) →
      fs'.lookup p = fs.lookup p
  | [], fs, fs', p => by
    intro h hp
    simp [pullLayers] at h
    subst h
    rfl
  | l0 :: ls, fs, fs', p => by
    intro h hp
    obtain ⟨hp0, hpls⟩ : p ≠ joinPath out l0.title ∧
        p ∉ ls.map (fun l => joinPath out l.title) := by
      simpa using hp
    unfold pullLayers at h
    by_cases hs : statSize fs (joinPath out l0.title) = some l0.size
    · rw [if_pos hs] at h
      exact pullLayers_frame fetch out ls fs fs' p h hpls
    · rw [if_neg hs] at h
      rcases hf : fetch l0 with e | c
      · simp only [hf] at h
        exact absurd h (by simp)
      · simp only [hf] at h
        have hrec := pullLayers_frame fetch out ls
          ((joinPath out l0.title, c) :: fs) fs' p h hpls
        have hbeq : (p == joinPath out l0.title) = false := by simp [hp0]
        rw [hrec]
        simp [List.lookup, hbeq]

/-- C8: the skip-if-present semantics of `pullOCIZarfPackage`.  Over any
layer list with pairwise-distinct destination paths, in a successful run:
a layer whose destination already exists with exactly the descriptor's size
is never fetched and its destination content is left untouched (no digest
re-verification); every other layer is fetched and its fetched bytes are
the final content at the path derived from its title annotation. -/
theorem c8_layer_skip (fetch : LayerDesc → Except String String)
    (out : String) :
    ∀ (layers : List LayerDesc) (fs fs' : List (String × String)),
      (layers.map (fun l => joinPath out l.title)).Nodup →
      (pullLayers fetch out layers fs).1 = .ok fs' →
      ∀ l ∈ layers,
        (statSize fs (joinPath out l.title) = some l.size →
          l ∉ (pullLayers fetch out layers fs).2 ∧
          fs'.lookup (joinPath out l.title) = fs.lookup (joinPath out l.title)) ∧
        (statSize fs (joinPath out l.title) ≠ some l.size →
          ∃ c, fetch l = .ok c ∧
            fs'.lookup (joinPath out l.title) = some c ∧
            l ∈ (pullLayers fetch out layers fs).2)
  | [], fs, fs' => by
    intro _ _ l hl
    exact absurd hl (by simp)
  | l0 :: ls, fs, fs' => by
    intro hnd h l hl
    obtain ⟨hnd0, hndls⟩ : (joinPath out l0.title) ∉
        ls.map (fun l => joinPath out l.title) ∧
        (ls.map (fun l => joinPath out l.title)).Nodup := by
      simpa using hnd
    by_cases hs : statSize fs (joinPath out l0.title) = some l0.size
    · have hred : pullLayers fetch out (l0 :: ls) fs = pullLayers fetch out ls fs := by
        conv_lhs => unfold pullLayers
        rw [if_pos hs]
      rw [hred] at h ⊢
      rcases List.mem_cons.mp hl with rfl | hls
      · refine ⟨fun _ => ⟨fun hmem => ?_, ?_⟩, fun hns => absurd hs hns⟩
        · exact hnd0 (List.mem_map_of_mem _
            (pullLayers_trace_subset fetch out ls fs l hmem))
        · exact pullLayers_frame fetch out ls fs fs' _ h hnd0
      · exact c8_layer_skip fetch out ls fs fs' hndls h l hls
    · rcases hf : fetch l0 with e | c
      · have hred : pullLayers fetch out (l0 :: ls) fs = (.error e, [l0]) := by
          conv_lhs => unfold pullLayers
          rw [if_neg hs]
          simp [hf]
        rw [hred] at h
        exact absurd h (by simp)
      · have hred : pullLayers fetch out (l0 :: ls) fs
            = ((pullLayers fetch out ls ((joinPath out l0.title, c) :: fs)).1,
               l0 :: (pullLayers fetch out ls ((joinPath out l0.title, c) :: fs)).2) := by
          conv_lhs => unfold pullLayers
          rw [if_neg hs]
          simp [hf]
        rw [hred] at h ⊢
        simp only at h
        rcases List.mem_cons.mp hl with rfl | hls
        · refine ⟨fun hss => absurd hss hs, fun _ => ⟨c, hf, ?_, List.mem_cons_self _ _⟩⟩
          have hfr := pullLayers_frame fetch out ls
            ((joinPath out l.title, c) :: fs) fs' (joinPath out l.title) h hnd0
          rw [hfr]
          simp [List.lookup]
        · have hpmem : joinPath out l.title ∈ ls.map (fun l => joinPath out l.title) :=
            List.mem_map_of_mem _ hls
          have hpne : joinPath out l.title ≠ joinPath out l0.title := by
            intro he
            exact hnd0 (he ▸ hpmem)
          have hbeq : (joinPath out l.title == joinPath out l0.title) = false := by
            simp [hpne]
          have hstat_eq : statSize ((joinPath out l0.title, c) :: fs) (joinPath out l.title)
              = statSize fs (joinPath out l.title) := by
            simp [statSize, List.lookup, hbeq]
          have hlook_eq : List.lookup (joinPath out l.title)
                ((joinPath out l0.title, c) :: fs)
              = List.lookup (joinPath out l.title) fs := by
            simp [List.lookup, hbeq]
          have ih := c8_layer_skip fetch out ls ((joinPath out l0.title, c) :: fs)
            fs' hndls h l hls
          have hlne : l ≠ l0 := by
            intro he
            exact hpne (by rw [he])
          constructor
          · intro hss
            have := ih.1 (hstat_eq.trans hss)
            refine ⟨fun hmem => ?_, this.2.trans hlook_eq⟩
            rcases List.mem_cons.mp hmem with he | hmem
            · exact hlne he
            · exact this.1 hmem
          · intro hns
            have := ih.2 (fun hc => hns (hstat_eq.symm.trans hc))
            obtain ⟨c', hc', hlook, hmem⟩ := this
            exact ⟨c', hc', hlook, List.mem_cons_of_mem _ hmem⟩

/-- Witness for `c8_layer_skip`: pulling layers `a.txt` (already present
with matching size 2) and `b.txt` (absent) into `out` skips the first —
it is not in the fetch trace and its content stays "hi" — and fetches the
second, writing the fetched bytes "yyy" at `out/b.txt`. -/
theorem c8_layer_skip_witness :
    (layerA ∉ (pullLayers fetchYYY "out" [layerA, layerB] outFS).2 ∧
      (match (pullLayers fetchYYY "out" [layerA, layerB] outFS).1 with
        | .ok fs' => fs'.lookup "out/a.txt"
        | .error _ => none) = some "hi") ∧
    (∃ c, fetchYYY layerB = .ok c ∧
      (match (pullLayers fetchYYY "out" [layerA, layerB] outFS).1 with
        | .ok fs' => fs'.lookup "out/b.txt"
        | .error _ => none) = some c ∧
      layerB ∈ (pullLayers fetchYYY "out" [layerA, layerB] outFS).2) := by
  have hok : (pullLayers fetchYYY "out" [layerA, layerB] outFS).1
      = .ok [("out/b.txt", "yyy"), ("out/a.txt", "hi")] := rfl
  have h := c8_layer_skip fetchYYY "out" [layerA, layerB] outFS
    [("out/b.txt", "yyy"), ("out/a.txt", "hi")] (by decide) hok
  constructor
  · have ha := (h layerA (by simp)).1 (by decide)
    refine ⟨ha.1, ?_⟩
    rw [hok]
    exact ha.2.trans (by decide)
  · have hb := (h layerB (by simp)).2 (by decide)
    obtain ⟨c, hc, hlook, hmem⟩ := hb
    refine ⟨c, hc, ?_, hmem⟩
    rw [hok]
    exact hlook

/-- C9: `isValidVersion` returns true exactly when the version splits on
"." into exactly three parts whose first part parses (Go `Atoi`,
errors-as-0) to at least 1 and whose second part parses to at least 52.
Consequently "2.0.0" — greater than 1.52.0 — is rejected, and `Run` fails
it with the message demanding only "at least 1.52.0", while "1.52.0"
itself passes. -/
theorem c9_isValidVersion_semantics :
    (∀ v : String,
      isValidVersion v = true ↔
        ((goSplitDot v).length = 3 ∧
         1 ≤ goAtoi ((goSplitDot v).getD 0 "") ∧
         52 ≤ goAtoi ((goSplitDot v).getD 1 ""))) ∧
    isValidVersion "2.0.0" = false ∧
    bigbangRunVersionGate "2.0.0"
      = .error ("invalid version: " ++ "2.0.0" ++ ", must be at least 1.52.0") ∧
    isValidVersion "1.52.0" = true := by
  refine ⟨fun v => ?_, by decide, ?_, by decide⟩
  · by_cases h3 : (goSplitDot v).length = 3
    · have hb : ((goSplitDot v).length != 3) = false := by simp [h3]
      simp [isValidVersion, hb, h3, and_assoc]
    · have hb : ((goSplitDot v).length != 3) = true := by simp [h3]
      simp [isValidVersion, hb, h3]
  · rfl

/-- C10: the frame property of `zarf generate package`.  For an existing
destination that parses to `p`, the written package is `p` with only
`Metadata.Name` replaced by the argument — kind, all other metadata
fields, build info, components, variables and constants are unchanged.
For a missing destination, the written package is the zero value with only
`Metadata.Name` and `Kind = "ZarfPackageConfig"` set. -/
theorem c10_generate_package_frame (p : ZarfPackage) (arg : String) :
    (∃ q, generatePackage (.found (.ok p)) arg = .ok q ∧
      q.Metadata.Name = arg ∧
      q.Kind = p.Kind ∧
      q.Metadata.Description = p.Metadata.Description ∧
      q.Metadata.Version = p.Metadata.Version ∧
      q.Metadata.Architecture = p.Metadata.Architecture ∧
      q.Metadata.AggregateChecksum = p.Metadata.AggregateChecksum ∧
      q.Build = p.Build ∧
      q.Components = p.Components ∧
      q.Variables = p.Variables ∧
      q.Constants = p.Constants) ∧
    generatePackage .notExists arg
      = .ok { ZarfPackage.zero with
              Kind := "ZarfPackageConfig"
              Metadata := { ZarfPackage.zero.Metadata with Name := arg } } := by
  refine ⟨⟨{ p with Metadata := { p.Metadata with Name := arg } },
          rfl, rfl, rfl, rfl, rfl, rfl, rfl, rfl, rfl, rfl, rfl⟩, rfl⟩

end EdgeGraviton
